import Mathlib

/-!
Verification of the FSFS revision-storage engine: the shard/pack layout, the
revision and revprop pack engines, addressing-mode upgrades, recovery and the
transaction-ID codec.

The repository ships the test driver `subversion/tests/libsvn_fs_fs/fs-fs-pack-test.c`
for the FSFS storage engine; the engine itself (`libsvn_fs_fs`) is not part of
the source tree.  The definitions below are therefore a shallow embedding of
the engine as described by the specification, constrained by the assertions of
the test driver, which is repository code and authoritative wherever the two
disagree (notably on the pack watermark, which `test_info` pins to
`(MAX_REV + 1) / SHARD_SIZE * SHARD_SIZE`).
-/

namespace Svn

/-- Error taxonomy of the engine (spec section 7), together with the low-level
checksum failure surfaced by the block-read path (spec section 4.4). -/
inductive Err where
  | Corruption
  | MalformedIdentifier
  | NotFound
  | Unsupported
  | ChecksumMismatch
  deriving DecidableEq, Repr

/-- Modelled from the spec: the Shard Layout Manager's shard map (section 3):
revision `rev` belongs to shard `rev / S` for shard size `S`. -/
def shardOf (S rev : Nat) : Nat := rev / S

/-- Modelled from the spec: the number of complete shards a pack run
consolidates.  The spec's section 8 formula (`⌊N/S⌋` shards) conflicts with
the repository's own tests: `test_info` asserts
`min_unpacked_rev == (MAX_REV + 1) / SHARD_SIZE * SHARD_SIZE` and
`pack_even_filesystem` expects the shard holding the youngest revision to be
packed when that shard is complete.  The tests are followed: a shard is packed
exactly when all of its `S` revisions exist, so `(N + 1) / S` shards are
packed when the youngest revision is `N`. -/
def completedShards (S N : Nat) : Nat := (N + 1) / S

/-- On-disk shard directory state: which shards have a pack file, which still
have a loose revision directory, and the persisted min-unpacked-revision
watermark. -/
structure Disk where
  packFiles : List Nat
  looseShards : List Nat
  minUnpacked : Nat
  deriving DecidableEq, Repr

/-- Modelled from the spec: packing one shard `k` (Revision Pack Engine,
section 4.2): write the shard's pack file, remove its loose revision
directory, and advance the watermark past the shard. -/
def packShard (S : Nat) (d : Disk) (k : Nat) : Disk :=
  { packFiles := d.packFiles ++ [k]
    looseShards := d.looseShards.filter (fun j => j != k)
    minUnpacked := (k + 1) * S }

/-- Modelled from the spec: a full pack run (`svn_fs_pack`): pack every
complete shard in ascending order, starting from shard 0 of a repository. -/
def svn_fs_pack (S N : Nat) (d : Disk) : Disk :=
  (List.range (completedShards S N)).foldl (packShard S) d

/-- A fully loose repository with youngest revision `N`: no pack files, every
shard directory present, watermark 0. -/
def looseDisk (S N : Nat) : Disk :=
  { packFiles := []
    looseShards := List.range (shardOf S N + 1)
    minUnpacked := 0 }

theorem foldl_packShard_packFiles (S : Nat) (d : Disk) (n : Nat) :
    ((List.range n).foldl (packShard S) d).packFiles = d.packFiles ++ List.range n := by
  induction n generalizing d with
  | zero => simp
  | succ m ih =>
      rw [List.range_succ, List.foldl_append]
      simp only [List.foldl_cons, List.foldl_nil, packShard]
      rw [ih]
      simp [List.range_succ]

theorem foldl_packShard_minUnpacked (S : Nat) (d : Disk) (n : Nat) :
    ((List.range n).foldl (packShard S) d).minUnpacked
      = if n = 0 then d.minUnpacked else n * S := by
  induction n generalizing d with
  | zero => simp
  | succ m ih =>
      rw [List.range_succ, List.foldl_append]
      simp [packShard]

theorem foldl_packShard_looseShards (S : Nat) (d : Disk) (n : Nat) (j : Nat) :
    (j ∈ ((List.range n).foldl (packShard S) d).looseShards
      ↔ j ∈ d.looseShards ∧ n ≤ j) := by
  induction n generalizing d with
  | zero => simp
  | succ m ih =>
      rw [List.range_succ, List.foldl_append]
      simp only [List.foldl_cons, List.foldl_nil, packShard, List.mem_filter] at *
      rw [ih]
      constructor
      · rintro ⟨⟨hj, hm⟩, hne⟩
        have : j ≠ m := by simpa using hne
        exact ⟨hj, by omega⟩
      · rintro ⟨hj, hm⟩
        exact ⟨⟨hj, by omega⟩, by simp; omega⟩

/-- Membership in the pack-file list after a full pack run. -/
theorem svn_fs_pack_packFiles (S N k : Nat) :
    (k ∈ (svn_fs_pack S N (looseDisk S N)).packFiles ↔ k < completedShards S N) := by
  rw [svn_fs_pack, foldl_packShard_packFiles]
  simp [looseDisk]

/-- Watermark after a full pack run of a loose repository. -/
theorem svn_fs_pack_minUnpacked (S N : Nat) :
    (svn_fs_pack S N (looseDisk S N)).minUnpacked = completedShards S N * S := by
  rw [svn_fs_pack, foldl_packShard_minUnpacked]
  split <;> simp_all [looseDisk]

/-- Loose shard directories after a full pack run. -/
theorem svn_fs_pack_looseShards (S N j : Nat) :
    (j ∈ (svn_fs_pack S N (looseDisk S N)).looseShards
      ↔ (j ≤ shardOf S N ∧ completedShards S N ≤ j)) := by
  rw [svn_fs_pack, foldl_packShard_looseShards]
  simp [looseDisk, Nat.lt_succ_iff, and_comm]

/-- C1 (amended): for every shard size `S ≥ 1` and youngest revision `N`,
after a full pack operation the min-unpacked-revision watermark equals
`⌊(N+1)/S⌋·S`, a shard has a pack file exactly when it is one of the
`⌊(N+1)/S⌋` complete shards, every packed shard's loose revision directory is
gone, and the shard containing the youngest revision remains loose exactly
when the youngest revision does not complete its shard (i.e. unless
`S ∣ N+1`). -/
theorem claim_C1 (S N : Nat) (_hS : 1 ≤ S) :
    (svn_fs_pack S N (looseDisk S N)).minUnpacked = (N + 1) / S * S
    ∧ (∀ k, k ∈ (svn_fs_pack S N (looseDisk S N)).packFiles ↔ k < (N + 1) / S)
    ∧ (∀ k, k < (N + 1) / S → k ∉ (svn_fs_pack S N (looseDisk S N)).looseShards)
    ∧ (shardOf S N ∈ (svn_fs_pack S N (looseDisk S N)).looseShards
        ↔ ¬ (N + 1) % S = 0) := by
  refine ⟨svn_fs_pack_minUnpacked S N, fun k => svn_fs_pack_packFiles S N k, ?_, ?_⟩
  · intro k hk hmem
    rw [svn_fs_pack_looseShards] at hmem
    unfold completedShards at hmem
    omega
  · rw [svn_fs_pack_looseShards]
    have hsd := Nat.succ_div N S
    have hdvd_iff : S ∣ (N + 1) ↔ (N + 1) % S = 0 := Nat.dvd_iff_mod_eq_zero
    unfold shardOf completedShards
    by_cases hdvd : (N + 1) % S = 0
    · rw [if_pos (hdvd_iff.mpr hdvd)] at hsd
      simp only [hdvd, not_true, iff_false, not_and]
      intro _
      omega
    · rw [if_neg (fun hc => hdvd (hdvd_iff.mp hc))] at hsd
      simp only [hdvd, not_false_iff, iff_true]
      omega

/-- C1 witness: on the `pack_filesystem` test configuration (shard size 7,
youngest revision 53) the watermark is 49 and shard 0 is packed. -/
theorem claim_C1_witness :
    (svn_fs_pack 7 53 (looseDisk 7 53)).minUnpacked = 49
    ∧ (0 ∈ (svn_fs_pack 7 53 (looseDisk 7 53)).packFiles ↔ (0 : Nat) < 54 / 7) :=
  ⟨(claim_C1 7 53 (by decide)).1, (claim_C1 7 53 (by decide)).2.1 0⟩

/-- C1 counterexample: on the `test_info` configuration (shard size 3,
youngest revision 5) the watermark after packing is 6, not
`⌊N/S⌋·S = 3`; two shards are packed, not `⌊N/S⌋ = 1`; and the shard
containing the youngest revision is packed, not loose. -/
theorem claim_C1_cex :
    (svn_fs_pack 3 5 (looseDisk 3 5)).minUnpacked = 6
    ∧ 5 / 3 * 3 = 3
    ∧ (svn_fs_pack 3 5 (looseDisk 3 5)).packFiles.length = 2
    ∧ 5 / 3 = 1
    ∧ shardOf 3 5 ∈ (svn_fs_pack 3 5 (looseDisk 3 5)).packFiles
    ∧ shardOf 3 5 ∉ (svn_fs_pack 3 5 (looseDisk 3 5)).looseShards := by
  decide

/-! Content storage and the pack container payload (spec sections 3 and 4.2):
a pack container is the concatenation of the shard's revision payloads plus an
index of per-revision offsets. -/

/-- Concatenation of the first `n` blobs produced by `f`. -/
def concatBlobs (f : Nat → List Nat) : Nat → List Nat
  | 0 => []
  | n + 1 => concatBlobs f n ++ f n

/-- Byte offset of blob `i` inside `concatBlobs f n` (for `i ≤ n`): the index
entry the pack engine records for each revision. -/
def blobOffset (f : Nat → List Nat) : Nat → Nat
  | 0 => 0
  | n + 1 => blobOffset f n + (f n).length

theorem length_concatBlobs (f : Nat → List Nat) (n : Nat) :
    (concatBlobs f n).length = blobOffset f n := by
  induction n with
  | zero => rfl
  | succ m ih => simp [concatBlobs, blobOffset, ih]

theorem blobOffset_mono (f : Nat → List Nat) {i n : Nat} (h : i ≤ n) :
    blobOffset f i ≤ blobOffset f n := by
  induction h with
  | refl => exact Nat.le_refl _
  | step h ih => exact Nat.le_trans ih (Nat.le_add_right _ _)

/-- Slicing a pack payload at blob `i`'s recorded offset and length recovers
blob `i` exactly. -/
theorem extractBlob (f : Nat → List Nat) {i n : Nat} (h : i < n) :
    ((concatBlobs f n).drop (blobOffset f i)).take (f i).length = f i := by
  induction n with
  | zero => omega
  | succ m ih =>
      have hc : concatBlobs f (m + 1) = concatBlobs f m ++ f m := rfl
      rcases Nat.lt_succ_iff_lt_or_eq.mp h with h' | h'
      · have hoff : blobOffset f i + (f i).length ≤ (concatBlobs f m).length := by
          rw [length_concatBlobs]
          have hstep : blobOffset f (i + 1) ≤ blobOffset f m := blobOffset_mono f h'
          simpa [blobOffset] using hstep
        rw [hc, List.drop_append_of_le_length (by omega),
            List.take_append_of_le_length (by rw [List.length_drop]; omega)]
        exact ih h'
      · subst h'
        rw [hc, ← length_concatBlobs f i, List.drop_left, List.take_length]

/-- Filesystem with revision content, for the read round-trip: `content r` is
the byte payload of revision `r` (committed for `r ≤ youngest`). -/
structure RevFS where
  shardSize : Nat
  youngest : Nat
  content : Nat → List Nat
  minUnpackedRev : Nat

/-- Modelled from the spec: the pack container payload of shard `k` (Revision
Pack Engine, section 4.2, step 2): concatenation of the shard's revision
payloads. -/
def packPayload (fs : RevFS) (k : Nat) : List Nat :=
  concatBlobs (fun i => fs.content (k * fs.shardSize + i)) fs.shardSize

/-- Modelled from the spec: the per-revision offset the pack engine records in
the container index for the `i`-th revision of shard `k`. -/
def packOffset (fs : RevFS) (k i : Nat) : Nat :=
  blobOffset (fun i => fs.content (k * fs.shardSize + i)) i

/-- Modelled from the spec: reading a revision out of its pack container via
the shard index (Shard Layout Manager, section 4.1, packed branch). -/
def readPackedRev (fs : RevFS) (rev : Nat) : List Nat :=
  ((packPayload fs (shardOf fs.shardSize rev)).drop
      (packOffset fs (shardOf fs.shardSize rev) (rev % fs.shardSize))).take
    (fs.content rev).length

/-- Modelled from the spec: the read interface dispatches on the watermark
(section 4.1): packed lookup below `minUnpackedRev`, loose file otherwise. -/
def svn_fs_read (fs : RevFS) (rev : Nat) : List Nat :=
  if rev < fs.minUnpackedRev then readPackedRev fs rev else fs.content rev

/-- Modelled from the spec: a full pack run over the revision content: all
complete shards become packed and the watermark advances accordingly. -/
def packRevFS (fs : RevFS) : RevFS :=
  { fs with
      minUnpackedRev := completedShards fs.shardSize fs.youngest * fs.shardSize }

theorem readPackedRev_eq (fs : RevFS) (hS : 1 ≤ fs.shardSize) (rev : Nat) :
    readPackedRev fs rev = fs.content rev := by
  have hi : rev % fs.shardSize < fs.shardSize := Nat.mod_lt _ hS
  have h := extractBlob
    (fun i => fs.content (shardOf fs.shardSize rev * fs.shardSize + i)) hi
  have hrev : shardOf fs.shardSize rev * fs.shardSize + rev % fs.shardSize
      = rev := by
    unfold shardOf
    rw [Nat.mul_comm]
    exact Nat.div_add_mod rev fs.shardSize
  simpa [readPackedRev, packPayload, packOffset, hrev] using h

/-- C2: for every committed revision, reading through the filesystem read
interface after the pack operation returns data byte-identical to the content
before packing; the packed and loose lookups of the same revision are
observationally equal. -/
theorem claim_C2 (fs : RevFS) (hS : 1 ≤ fs.shardSize)
    (h0 : fs.minUnpackedRev = 0) (rev : Nat) :
    svn_fs_read (packRevFS fs) rev = svn_fs_read fs rev := by
  have h1 : svn_fs_read fs rev = fs.content rev := by
    unfold svn_fs_read
    rw [h0]
    simp
  rw [h1]
  unfold svn_fs_read
  by_cases h : rev < (packRevFS fs).minUnpackedRev
  · rw [if_pos h]
    exact readPackedRev_eq (packRevFS fs) hS rev
  · rw [if_neg h]
    rfl

/-- A small concrete filesystem: shard size 2, youngest revision 5, all loose. -/
def demoFS : RevFS :=
  { shardSize := 2
    youngest := 5
    content := fun r => [r, r * r + 1]
    minUnpackedRev := 0 }

/-- C2 witness: reading revision 3 of the demo filesystem after packing
returns the same bytes as before. -/
theorem claim_C2_witness :
    svn_fs_read (packRevFS demoFS) 3 = svn_fs_read demoFS 3 :=
  claim_C2 demoFS (by decide) rfl 3

/-! Transaction-ID codec (spec section 4.6): `svn_fs_fs__id_txn_parse` parses
the numeric revision prefix of a `"<revision>-<counter>"` transaction ID with
per-digit checked accumulation. -/

/-- Decimal digit value of a character, `none` on a non-digit. -/
def digitVal (c : Char) : Option Nat :=
  if '0' ≤ c ∧ c ≤ '9' then some (c.toNat - '0'.toNat) else none

/-- Base36 alphabet used by the counter component of a transaction ID. -/
def isBase36 (c : Char) : Bool :=
  ('0' ≤ c && c ≤ '9') || ('a' ≤ c && c ≤ 'z')

/-- Modelled from the spec: the per-digit accumulation loop of the revision
component (section 4.6): at each digit the checked step `value*10+digit` is
compared against the maximal representable revision `maxV` and the parse is
rejected at that arithmetic step on overflow.  Stops at the first non-digit,
returning the accumulated value and the unconsumed remainder. -/
def parseRevLoop (maxV : Nat) : List Char → Nat → Except Err (Nat × List Char)
  | [], v => .ok (v, [])
  | c :: cs, v =>
      match digitVal c with
      | some d =>
          if maxV < v * 10 + d then .error .MalformedIdentifier
          else parseRevLoop maxV cs (v * 10 + d)
      | none => .ok (v, c :: cs)

/-- Modelled from the spec: `svn_fs_fs__id_txn_parse` on the character list of
the ID (Transaction-ID Codec, section 4.6): a nonempty maximal run of decimal
digits with per-step overflow checking, immediately followed by `-`, then a
nonempty base36 counter ending the string. -/
def id_txn_parse_list (maxV : Nat) (l : List Char) : Except Err Nat :=
  match l with
  | [] => .error .MalformedIdentifier
  | c :: _ =>
      if (digitVal c).isNone then .error .MalformedIdentifier
      else
        match parseRevLoop maxV l 0 with
        | .error e => .error e
        | .ok (v, '-' :: cnt) =>
            if !cnt.isEmpty && cnt.all isBase36 then .ok v
            else .error .MalformedIdentifier
        | .ok _ => .error .MalformedIdentifier

/-- Modelled from the spec: `svn_fs_fs__id_txn_parse` (section 4.6). -/
def svn_fs_fs__id_txn_parse (maxV : Nat) (s : String) : Except Err Nat :=
  id_txn_parse_list maxV s.toList

instance : DecidableEq (Except Err Nat) := fun x y =>
  match x, y with
  | .error a, .error b =>
      if h : a = b then isTrue (by rw [h]) else isFalse (fun hc => h (Except.error.inj hc))
  | .ok a, .ok b =>
      if h : a = b then isTrue (by rw [h]) else isFalse (fun hc => h (Except.ok.inj hc))
  | .error _, .ok _ => isFalse (fun hc => Except.noConfusion hc)
  | .ok _, .error _ => isFalse (fun hc => Except.noConfusion hc)

/-- Maximal representable signed revision on a 64-bit platform. -/
def maxRev64 : Nat := 9223372036854775807

/-- Maximal representable signed revision on a 32-bit platform. -/
def maxRev32 : Nat := 2147483647

/-- Mathematical value of a decimal digit run, accumulated from `v`. -/
def digitsValFrom : List Char → Nat → Nat
  | [], v => v
  | c :: cs, v => digitsValFrom cs (v * 10 + (c.toNat - '0'.toNat))

theorem parseRevLoop_cons_digit (maxV : Nat) (c : Char) (cs : List Char)
    (v d : Nat) (h : digitVal c = some d) :
    parseRevLoop maxV (c :: cs) v
      = if maxV < v * 10 + d then .error .MalformedIdentifier
        else parseRevLoop maxV cs (v * 10 + d) := by
  simp only [parseRevLoop, h]

/-- A digit run whose mathematical value exceeds `maxV` is rejected inside the
accumulation loop, whatever follows it. -/
theorem parseRevLoop_overflow (maxV : Nat) (ds r : List Char) (v : Nat)
    (hds : ∀ c ∈ ds, '0' ≤ c ∧ c ≤ '9') (hv : v ≤ maxV)
    (hval : maxV < digitsValFrom ds v) :
    parseRevLoop maxV (ds ++ r) v = .error .MalformedIdentifier := by
  induction ds generalizing v with
  | nil =>
      simp only [digitsValFrom] at hval
      omega
  | cons c cs ih =>
      have hc := hds c (by simp)
      have hdv : digitVal c = some (c.toNat - '0'.toNat) := by
        unfold digitVal
        rw [if_pos hc]
      rw [List.cons_append, parseRevLoop_cons_digit maxV c (cs ++ r) v _ hdv]
      by_cases hover : maxV < v * 10 + (c.toNat - '0'.toNat)
      · rw [if_pos hover]
      · rw [if_neg hover]
        exact ih (v * 10 + (c.toNat - '0'.toNat))
          (fun x hx => hds x (by simp [hx])) (by omega) hval

/-- C3: the transaction-ID parser accepts `"0-0"` (revision 0) and the maximal
64-bit signed revision; every decimal revision string whose value overflows
the signed width is rejected with `MalformedIdentifier` — including
wrap-adjacent strings such as the 32-bit `"4831838208-0"`, whose naive
`value*10+digit` accumulation wraps back into the valid range, showing the
overflow is caught at the arithmetic step and not by range-checking the final
result — and non-digit (`"2e4-0"`) and multi-dash (`"2-4-0"`) strings are
rejected. -/
theorem claim_C3 :
    svn_fs_fs__id_txn_parse maxRev64 ("0-0") = .ok 0
    ∧ svn_fs_fs__id_txn_parse maxRev64 ("9223372036854775807-0")
        = .ok 9223372036854775807
    ∧ (∀ ds t : List Char, ds ≠ [] → (∀ c ∈ ds, '0' ≤ c ∧ c ≤ '9') →
        maxRev64 < digitsValFrom ds 0 →
        id_txn_parse_list maxRev64 (ds ++ '-' :: t) = .error .MalformedIdentifier)
    ∧ svn_fs_fs__id_txn_parse maxRev64 ("9223372036854775808-0")
        = .error .MalformedIdentifier
    ∧ svn_fs_fs__id_txn_parse maxRev64 ("18446744073709551616-0")
        = .error .MalformedIdentifier
    ∧ svn_fs_fs__id_txn_parse maxRev32 ("4831838208-0")
        = .error .MalformedIdentifier
    ∧ 4831838208 % 4294967296 ≤ maxRev32
    ∧ svn_fs_fs__id_txn_parse maxRev64 ("2e4-0") = .error .MalformedIdentifier
    ∧ svn_fs_fs__id_txn_parse maxRev64 ("2-4-0") = .error .MalformedIdentifier := by
  refine ⟨by decide, by decide, ?_, by decide, by decide, by decide, by decide,
    by decide, by decide⟩
  intro ds t hne hds hval
  obtain ⟨c, cs, rfl⟩ : ∃ c cs, ds = c :: cs := by
    cases ds with
    | nil => exact absurd rfl hne
    | cons c cs => exact ⟨c, cs, rfl⟩
  have hc := hds c (by simp)
  have herr : parseRevLoop maxRev64 ((c :: cs) ++ ('-' :: t)) 0
      = .error .MalformedIdentifier :=
    parseRevLoop_overflow maxRev64 (c :: cs) ('-' :: t) 0 hds (Nat.zero_le _) hval
  have hdig : (digitVal c).isNone = false := by
    unfold digitVal
    rw [if_pos hc]
    rfl
  rw [List.cons_append] at herr ⊢
  simp [id_txn_parse_list, hdig, herr]

/-- C3 witness: a 21-digit decimal revision string is rejected through the
general overflow branch of the claim. -/
theorem claim_C3_witness :
    id_txn_parse_list maxRev64
        (['1', '2', '3', '4', '5', '6', '7', '8', '9', '0', '1', '2', '3',
          '4', '5', '6', '7', '8', '9', '0', '1'] ++ '-' :: ['0'])
      = .error .MalformedIdentifier :=
  claim_C3.2.2.1 _ _ (by decide) (by decide) (by decide)

/-! Revprop Pack Engine (spec section 4.3): per-revision property sets are
consolidated into containers under the `max_pack_size` budget, with the
splitting policy for oversized ("huge") properties, revision 0 always
excluded. -/

/-- A revision property set: association list from property name to value. -/
abbrev PropSet := List (String × String)

/-- Value of property `name` in a property set. -/
def propGet (ps : PropSet) (name : String) : Option String :=
  match ps.find? (fun e => e.1 == name) with
  | some e => some e.2
  | none => none

/-- Set property `name` to `v` in a property set. -/
def propSet (ps : PropSet) (name v : String) : PropSet :=
  match ps with
  | [] => [(name, v)]
  | e :: rest => if e.1 == name then (name, v) :: rest else e :: propSet rest name v

/-- Serialized size of a property set (name, value and two separator bytes per
entry). -/
def propSetSize (ps : PropSet) : Nat :=
  (ps.map (fun e => e.1.length + e.2.length + 2)).sum

/-- Total serialized size of a container's entries. -/
def chunkSize (c : List (Nat × PropSet)) : Nat :=
  (c.map (fun e => propSetSize e.2)).sum

/-- Modelled from the spec: the container splitting policy of
`pack_revprops_shard` (section 4.3): entries are appended to the current
container unless that would exceed `maxSize`, in which case the current
container is sealed and a new one starts; a single entry exceeding `maxSize`
on its own legitimately overruns the budget and ends up alone. -/
def fillChunksAux (maxSize : Nat) :
    List (Nat × PropSet) → List (Nat × PropSet) → Nat → List (List (Nat × PropSet))
  | [], cur, _ => if cur.isEmpty then [] else [cur]
  | e :: rest, cur, curSize =>
      if maxSize < curSize + propSetSize e.2 ∧ cur ≠ [] then
        cur :: fillChunksAux maxSize rest [e] (propSetSize e.2)
      else
        fillChunksAux maxSize rest (cur ++ [e]) (curSize + propSetSize e.2)

/-- Reading `n` consecutive loose revprop files starting at revision `r`;
a missing file is `Corruption` (spec section 7). -/
def readRange (props : Nat → Option PropSet) :
    Nat → Nat → Except Err (List (Nat × PropSet))
  | 0, _ => .ok []
  | n + 1, r =>
      match props r with
      | none => .error .Corruption
      | some ps =>
          match readRange props n (r + 1) with
          | .error e => .error e
          | .ok rest => .ok ((r, ps) :: rest)

/-- First revision of shard `k` that revprop packing may include: revision 0
is always excluded (spec section 4.3). -/
def revpropStart (S k : Nat) : Nat := max (k * S) 1

/-- Modelled from the spec: `pack_revprops_shard(shard_index, max_pack_size)`
(section 4.3): reads the shard's loose revprop files (skipping revision 0) and
fills containers greedily under the budget.  A degenerate range
(`start > end`, as happens for shard 0 with shard size 1) means nothing to
pack and succeeds without touching the error branch. -/
def pack_revprops_shard (S k maxSize : Nat) (props : Nat → Option PropSet) :
    Except Err (List (List (Nat × PropSet))) :=
  if (k + 1) * S - 1 < revpropStart S k then .ok []
  else
    match readRange props ((k + 1) * S - revpropStart S k) (revpropStart S k) with
    | .error e => .error e
    | .ok entries => .ok (fillChunksAux maxSize entries [] 0)

/-- Filesystem state for revprop storage: the logical property set of each
committed revision, the shard size, the revprop container budget and the pack
watermark. -/
structure RevpropFS where
  shardSize : Nat
  youngest : Nat
  maxPackSize : Nat
  props : Nat → PropSet
  minUnpackedRev : Nat

/-- The revprop pack containers of shard `k`, as derived from the current
logical property sets (every loose file present). -/
def containersOf (fs : RevpropFS) (k : Nat) : List (List (Nat × PropSet)) :=
  match pack_revprops_shard fs.shardSize k fs.maxPackSize
      (fun r => some (fs.props r)) with
  | .ok cs => cs
  | .error _ => []

/-- Look a revision's entry up across the containers of its shard. -/
def lookupRev (cs : List (List (Nat × PropSet))) (rev : Nat) : Option PropSet :=
  match cs.flatten.find? (fun e => e.1 == rev) with
  | some e => some e.2
  | none => none

/-- Modelled from the spec: reading a revision's property set (Shard Layout
Manager dispatch, sections 4.1 and 4.3): revision 0 and revisions at or above
the watermark read the loose file; packed revisions are looked up in their
shard's containers, absence being `Corruption`. -/
def svn_fs_revision_proplist (fs : RevpropFS) (rev : Nat) : Except Err PropSet :=
  if rev = 0 ∨ fs.minUnpackedRev ≤ rev then .ok (fs.props rev)
  else
    match lookupRev (containersOf fs (shardOf fs.shardSize rev)) rev with
    | some ps => .ok ps
    | none => .error .Corruption

/-- Modelled from the spec: `svn_fs_revision_prop`: a single property read. -/
def svn_fs_revision_prop (fs : RevpropFS) (rev : Nat) (name : String) :
    Except Err (Option String) :=
  (svn_fs_revision_proplist fs rev).map (fun ps => propGet ps name)

/-- Modelled from the spec: `svn_fs_change_rev_prop` (section 4.3): update the
revision's property set; for a packed revision the owning container is
rewritten (and resplit) accordingly, which the derived `containersOf`
reflects. -/
def svn_fs_change_rev_prop (fs : RevpropFS) (rev : Nat) (name v : String) :
    RevpropFS :=
  { fs with
      props := fun r => if r = rev then propSet (fs.props r) name v else fs.props r }

/-- Containers merely regroup the entries they were filled from: flattening
the output of the splitting loop recovers the input entry sequence. -/
theorem fillChunks_flatten (maxSize : Nat) (es cur : List (Nat × PropSet))
    (sz : Nat) : (fillChunksAux maxSize es cur sz).flatten = cur ++ es := by
  induction es generalizing cur sz with
  | nil =>
      unfold fillChunksAux
      by_cases h : cur.isEmpty
      · rw [if_pos h, List.isEmpty_iff.mp h]
        rfl
      · rw [if_neg h]
        simp
  | cons e rest ih =>
      unfold fillChunksAux
      by_cases h : maxSize < sz + propSetSize e.2 ∧ cur ≠ []
      · rw [if_pos h, List.flatten_cons, ih]
        rfl
      · rw [if_neg h, ih]
        simp

/-- Every container produced by the splitting loop either fits the budget or
is a single oversized entry. -/
theorem fillChunks_bounded (maxSize : Nat) (es cur : List (Nat × PropSet))
    (sz : Nat) (hsz : sz = chunkSize cur)
    (hcur : chunkSize cur ≤ maxSize
      ∨ ∃ e, cur = [e] ∧ maxSize < propSetSize e.2) :
    ∀ c ∈ fillChunksAux maxSize es cur sz,
      chunkSize c ≤ maxSize ∨ ∃ e, c = [e] ∧ maxSize < propSetSize e.2 := by
  induction es generalizing cur sz with
  | nil =>
      intro c hc
      unfold fillChunksAux at hc
      by_cases h : cur.isEmpty
      · rw [if_pos h] at hc
        simp at hc
      · rw [if_neg h] at hc
        rw [List.mem_singleton.mp hc]
        exact hcur
  | cons e rest ih =>
      intro c hc
      unfold fillChunksAux at hc
      by_cases h : maxSize < sz + propSetSize e.2 ∧ cur ≠ []
      · rw [if_pos h] at hc
        rcases List.mem_cons.mp hc with rfl | hc'
        · exact hcur
        · refine ih [e] (propSetSize e.2) (by simp [chunkSize]) ?_ c hc'
          by_cases hb : propSetSize e.2 ≤ maxSize
          · left
            simp [chunkSize, hb]
          · right
            exact ⟨e, rfl, by omega⟩
      · rw [if_neg h] at hc
        refine ih (cur ++ [e]) (sz + propSetSize e.2)
          (by simp [chunkSize, hsz]) ?_ c hc
        rcases not_and_or.mp h with h1 | h2
        · left
          have : chunkSize (cur ++ [e]) = chunkSize cur + propSetSize e.2 := by
            simp [chunkSize]
          omega
        · have hnil : cur = [] := not_not.mp h2
          subst hnil
          by_cases hb : propSetSize e.2 ≤ maxSize
          · left
            simp [chunkSize, hb]
          · right
            exact ⟨e, rfl, by omega⟩

/-- An entry's size never exceeds its container's total size. -/
theorem mem_le_chunkSize {c : List (Nat × PropSet)} {e : Nat × PropSet}
    (h : e ∈ c) : propSetSize e.2 ≤ chunkSize c :=
  List.single_le_sum (fun x _ => Nat.zero_le x) _
    (List.mem_map_of_mem (fun e => propSetSize e.2) h)

/-- When every loose revprop file is present, reading a range yields the
entries in revision order. -/
theorem readRange_all (props : Nat → PropSet) (n r : Nat) :
    readRange (fun x => some (props x)) n r
      = .ok ((List.range' r n).map (fun x => (x, props x))) := by
  induction n generalizing r with
  | zero => rfl
  | succ m ih =>
      rw [List.range'_succ r m 1]
      simp only [readRange, ih, List.map_cons]

/-- The entry sequence the revprop pack engine reads for shard `k`. -/
def shardEntries (fs : RevpropFS) (k : Nat) : List (Nat × PropSet) :=
  (List.range' (revpropStart fs.shardSize k)
      ((k + 1) * fs.shardSize - revpropStart fs.shardSize k)).map
    (fun r => (r, fs.props r))

theorem containersOf_eq (fs : RevpropFS) (k : Nat) :
    containersOf fs k
      = fillChunksAux fs.maxPackSize (shardEntries fs k) [] 0 := by
  unfold containersOf pack_revprops_shard shardEntries
  by_cases h : (k + 1) * fs.shardSize - 1 < revpropStart fs.shardSize k
  · rw [if_pos h]
    have hc : (k + 1) * fs.shardSize - revpropStart fs.shardSize k = 0 := by
      unfold revpropStart at *
      omega
    rw [hc]
    rfl
  · rw [if_neg h, readRange_all fs.props
      ((k + 1) * fs.shardSize - revpropStart fs.shardSize k)
      (revpropStart fs.shardSize k)]

/-- Finding a revision's entry in the mapped revision range. -/
theorem find_in_mapped_range {β : Type} (f : Nat → β) (rev r n : Nat)
    (h1 : r ≤ rev) (h2 : rev < r + n) :
    ((List.range' r n).map (fun x => (x, f x))).find? (fun e => e.1 == rev)
      = some (rev, f rev) := by
  induction n generalizing r with
  | zero => omega
  | succ m ih =>
      rw [List.range'_succ r m 1, List.map_cons, List.find?_cons]
      by_cases hr : r = rev
      · subst hr
        simp
      · have hb : ((r, f r).1 == rev) = false := by
          simp [hr]
        rw [hb]
        exact ih (r + 1) (by omega) (by omega)

/-- Every entry stored in a shard's containers carries the revision's own
property set, and revision 0 is never among them. -/
theorem mem_containers_flatten (fs : RevpropFS) (k : Nat) (e : Nat × PropSet)
    (he : e ∈ (containersOf fs k).flatten) :
    e = (e.1, fs.props e.1) ∧ 1 ≤ e.1 := by
  rw [containersOf_eq, fillChunks_flatten, List.nil_append] at he
  unfold shardEntries at he
  rcases List.mem_map.mp he with ⟨r, hr, rfl⟩
  refine ⟨rfl, ?_⟩
  have := (List.mem_range'_1).mp hr
  unfold revpropStart at this
  omega

/-- Reading a revision's property set always returns the revision's logical
properties, whether the revision is packed or loose. -/
theorem proplist_ok (fs : RevpropFS) (hS : 1 ≤ fs.shardSize) (rev : Nat) :
    svn_fs_revision_proplist fs rev = .ok (fs.props rev) := by
  unfold svn_fs_revision_proplist
  by_cases h : rev = 0 ∨ fs.minUnpackedRev ≤ rev
  · rw [if_pos h]
  · rw [if_neg h]
    push_neg at h
    obtain ⟨h0, _⟩ := h
    have hk1 : shardOf fs.shardSize rev * fs.shardSize ≤ rev :=
      Nat.div_mul_le_self rev fs.shardSize
    have hk2 : rev < shardOf fs.shardSize rev * fs.shardSize + fs.shardSize :=
      Nat.lt_div_mul_add hS
    have hstart : revpropStart fs.shardSize (shardOf fs.shardSize rev) ≤ rev := by
      unfold revpropStart
      exact max_le hk1 (by omega)
    have hend : rev < (shardOf fs.shardSize rev + 1) * fs.shardSize := by
      rw [Nat.add_mul, Nat.one_mul]
      exact hk2
    have hse : revpropStart fs.shardSize (shardOf fs.shardSize rev)
        ≤ (shardOf fs.shardSize rev + 1) * fs.shardSize := by
      omega
    have hfind : lookupRev
        (containersOf fs (shardOf fs.shardSize rev)) rev
        = some (fs.props rev) := by
      unfold lookupRev
      rw [containersOf_eq, fillChunks_flatten, List.nil_append]
      unfold shardEntries
      rw [find_in_mapped_range fs.props rev
        (revpropStart fs.shardSize (shardOf fs.shardSize rev)) _ hstart
        (by rw [Nat.add_sub_cancel' hse]; exact hend)]
    rw [hfind]

/-- Setting a property and reading it back yields the new value. -/
theorem propGet_propSet (ps : PropSet) (name v : String) :
    propGet (propSet ps name v) name = some v := by
  induction ps with
  | nil => simp [propSet, propGet, List.find?]
  | cons e rest ih =>
      unfold propSet
      by_cases h : e.1 == name
      · rw [if_pos h]
        simp [propGet, List.find?]
      · rw [if_neg h]
        have hb : (e.1 == name) = false := by
          simpa using h
        unfold propGet at ih ⊢
        rw [List.find?_cons_of_neg _ (by simp [hb])]
        exact ih

/-- C7: revision 0's properties are never placed inside any pack container;
getting a revision-0 property succeeds and returns the loose value, and
setting it then getting it returns the newly set value, exactly as for a
loose revision. -/
theorem claim_C7 (fs : RevpropFS) (hS : 1 ≤ fs.shardSize) (name v : String) :
    (∀ k e, e ∈ (containersOf fs k).flatten → e.1 ≠ 0)
    ∧ svn_fs_revision_prop fs 0 name = .ok (propGet (fs.props 0) name)
    ∧ svn_fs_revision_prop (svn_fs_change_rev_prop fs 0 name v) 0 name
        = .ok (some v) := by
  refine ⟨?_, ?_, ?_⟩
  · intro k e he
    have := (mem_containers_flatten fs k e he).2
    omega
  · unfold svn_fs_revision_prop
    rw [proplist_ok fs hS 0]
    rfl
  · unfold svn_fs_revision_prop
    rw [proplist_ok (svn_fs_change_rev_prop fs 0 name v) hS 0]
    show Except.ok
        (propGet ((svn_fs_change_rev_prop fs 0 name v).props 0) name) = _
    simp [svn_fs_change_rev_prop, propGet_propSet]

/-- A concrete revprop filesystem: shard size 4, youngest revision 10,
container budget 64 bytes, revision `r` carrying an `r`-byte log message,
shards 0 and 1 packed. -/
def demoRevpropFS : RevpropFS :=
  { shardSize := 4
    youngest := 10
    maxPackSize := 64
    props := fun r => [(("svn:log"), (String.mk (List.replicate r 'x')))]
    minUnpackedRev := 8 }

/-- C7 witness: on the demo filesystem, setting then getting a revision-0
property returns the new value. -/
theorem claim_C7_witness :
    svn_fs_revision_prop
        (svn_fs_change_rev_prop demoRevpropFS 0 ("svn:author")
          ("tweaked-author")) 0 ("svn:author")
      = .ok (some ("tweaked-author")) :=
  (claim_C7 demoRevpropFS (by decide) ("svn:author") ("tweaked-author")).2.2

/-- C5: writing a property whose serialized size alone exceeds
`max_pack_size` to revision `r` puts `r` in a single-revision container,
every container still respects the budget apart from single oversized
entries, `r` reads back the huge value, and every other revision reads back
exactly what it read before.  The statement is relative to an arbitrary prior
state, so it also covers several huge properties written one after another to
adjacent or to distinct revisions. -/
theorem claim_C5 (fs : RevpropFS) (hS : 1 ≤ fs.shardSize) (r : Nat)
    (name v : String)
    (hhuge : fs.maxPackSize < propSetSize (propSet (fs.props r) name v)) :
    (∀ k c e, c ∈ containersOf (svn_fs_change_rev_prop fs r name v) k →
        e ∈ c → e.1 = r → c = [(r, propSet (fs.props r) name v)])
    ∧ (∀ k c, c ∈ containersOf (svn_fs_change_rev_prop fs r name v) k →
        chunkSize c ≤ fs.maxPackSize
          ∨ ∃ e, c = [e] ∧ fs.maxPackSize < propSetSize e.2)
    ∧ svn_fs_revision_proplist (svn_fs_change_rev_prop fs r name v) r
        = .ok (propSet (fs.props r) name v)
    ∧ (∀ x, x ≠ r →
        svn_fs_revision_proplist (svn_fs_change_rev_prop fs r name v) x
          = svn_fs_revision_proplist fs x) := by
  have hbounded : ∀ k c,
      c ∈ containersOf (svn_fs_change_rev_prop fs r name v) k →
      chunkSize c ≤ fs.maxPackSize
        ∨ ∃ e, c = [e] ∧ fs.maxPackSize < propSetSize e.2 := by
    intro k c hc
    rw [containersOf_eq] at hc
    exact fillChunks_bounded _ _ [] 0 (by simp [chunkSize])
      (Or.inl (by simp [chunkSize])) c hc
  refine ⟨?_, hbounded, ?_, ?_⟩
  · intro k c e hc he hr
    have hfact := mem_containers_flatten _ k e (List.mem_flatten.mpr ⟨c, hc, he⟩)
    have hef : e = (r, propSet (fs.props r) name v) := by
      rcases hfact with ⟨h1, _⟩
      rw [h1, hr]
      simp [svn_fs_change_rev_prop]
    rcases hbounded k c hc with hb | ⟨e', he', hb⟩
    · exfalso
      have hsz : propSetSize (propSet (fs.props r) name v) ≤ chunkSize c := by
        have := mem_le_chunkSize he
        rw [hef] at this
        exact this
      omega
    · have hee : e = e' := List.mem_singleton.mp (he' ▸ he)
      rw [he', ← hee, hef]
  · rw [proplist_ok (svn_fs_change_rev_prop fs r name v) hS r]
    simp [svn_fs_change_rev_prop]
  · intro x hx
    rw [proplist_ok (svn_fs_change_rev_prop fs r name v) hS x,
      proplist_ok fs hS x]
    simp [svn_fs_change_rev_prop, hx]

/-- C5 witness: writing a 60-byte log message (serialized size 69 > budget 64)
to packed revision 5 of the demo filesystem, then reading revision 5 back,
returns the huge value. -/
theorem claim_C5_witness :
    svn_fs_revision_proplist
        (svn_fs_change_rev_prop demoRevpropFS 5 ("svn:log")
          (String.mk (List.replicate 60 'y'))) 5
      = .ok (propSet (demoRevpropFS.props 5) ("svn:log")
          (String.mk (List.replicate 60 'y'))) :=
  (claim_C5 demoRevpropFS (by decide) 5 ("svn:log")
    (String.mk (List.replicate 60 'y')) (by decide)).2.2.1

/-- C8: with shard size 1 the revision-0 exclusion makes shard 0's revprop
pack range degenerate (start 1 > end 0); the pack operation treats it as
nothing to pack and succeeds — unconditionally in the on-disk files, so its
error branch is unreachable for this input — and revision 1's revprops remain
readable afterwards. -/
theorem claim_C8 (maxSize : Nat) (props : Nat → Option PropSet)
    (fs : RevpropFS) (h1 : fs.shardSize = 1) :
    pack_revprops_shard 1 0 maxSize props = .ok []
    ∧ svn_fs_revision_proplist fs 1 = .ok (fs.props 1) := by
  constructor
  · rfl
  · exact proplist_ok fs (by omega) 1

/-- C8 witness: the degenerate shard-0 range packs to nothing even when every
loose revprop file is reported missing, and revision 1 of a shard-size-1
variant of the demo filesystem reads its revprops back. -/
theorem claim_C8_witness :
    pack_revprops_shard 1 0 64 (fun _ => none) = .ok []
    ∧ svn_fs_revision_proplist { demoRevpropFS with shardSize := 1 } 1
        = .ok (demoRevpropFS.props 1) :=
  claim_C8 64 (fun _ => none) { demoRevpropFS with shardSize := 1 } rfl

/-! Recovery Verifier (spec section 4.5): after an unclean shutdown the
persisted watermark is untrusted; recovery re-derives it by probing the shard
directories, then verifies that every revision at or above it has its loose
revprop file, treating a missing file as hard corruption. -/

/-- On-disk state the recovery verifier scans. -/
structure RecoverFS where
  shardSize : Nat
  youngest : Nat
  packedShard : Nat → Bool
  looseRevpropFile : Nat → Bool
  minUnpackedFile : Nat

/-- First shard index at or after `k` whose pack container is absent, probing
at most `fuel` shards. -/
def firstLooseShard (packed : Nat → Bool) : Nat → Nat → Nat
  | 0, k => k
  | fuel + 1, k => if packed k then firstLooseShard packed fuel (k + 1) else k

/-- Modelled from the spec: the watermark re-derived by scanning shard
directories for the highest contiguous packed prefix (section 4.5, step 1),
ignoring the persisted watermark file. -/
def derivedWatermark (fs : RecoverFS) : Nat :=
  firstLooseShard fs.packedShard (shardOf fs.shardSize fs.youngest + 1) 0
    * fs.shardSize

/-- Verify the presence of `n` consecutive loose revprop files starting at
revision `r`; a missing one is `Corruption` (section 4.5, step 2). -/
def checkLooseRevprops (present : Nat → Bool) : Nat → Nat → Except Err Unit
  | 0, _ => .ok ()
  | n + 1, r =>
      if present r then checkLooseRevprops present n (r + 1)
      else .error .Corruption

/-- Modelled from the spec: `recover(repo)` (section 4.5): re-derive the
watermark, verify every revision at or above it has a loose revprop file, and
persist the re-derived watermark.  Nothing else is written; in particular no
missing file is fabricated. -/
def svn_fs_recover (fs : RecoverFS) : Except Err RecoverFS :=
  match checkLooseRevprops fs.looseRevpropFile
      (fs.youngest + 1 - derivedWatermark fs) (derivedWatermark fs) with
  | .error e => .error e
  | .ok _ => .ok { fs with minUnpackedFile := derivedWatermark fs }

theorem checkLooseRevprops_ok (p : Nat → Bool) (n r : Nat)
    (h : ∀ x, r ≤ x → x < r + n → p x = true) :
    checkLooseRevprops p n r = .ok () := by
  induction n generalizing r with
  | zero => rfl
  | succ m ih =>
      unfold checkLooseRevprops
      rw [if_pos (h r le_rfl (by omega))]
      exact ih (r + 1) (fun x hx1 hx2 => h x (by omega) (by omega))

theorem checkLooseRevprops_error (p : Nat → Bool) (n : Nat) {x : Nat}
    (hmiss : p x = false) :
    ∀ r, r ≤ x → x < r + n →
      checkLooseRevprops p n r = .error .Corruption := by
  induction n with
  | zero =>
      intro r h1 h2
      omega
  | succ m ih =>
      intro r h1 h2
      unfold checkLooseRevprops
      by_cases hr : p r
      · rw [if_pos hr]
        have hne : r ≠ x := fun he => by
          simp [he, hmiss] at hr
        exact ih (r + 1) (by omega) (by omega)
      · rw [if_neg hr]

/-- On a consistent repository, recovery succeeds and persists the re-derived
watermark. -/
theorem recover_ok (fs : RecoverFS)
    (h : ∀ x, derivedWatermark fs ≤ x → x ≤ fs.youngest →
      fs.looseRevpropFile x = true) :
    svn_fs_recover fs
      = .ok { fs with minUnpackedFile := derivedWatermark fs } := by
  unfold svn_fs_recover
  rw [checkLooseRevprops_ok fs.looseRevpropFile _ _
    (fun x hx1 hx2 => h x hx1 (by omega))]

/-- C4: when the youngest revision is loose and its loose revprop file is
absent, recovery fails with `Corruption`; recovery never touches the shard
containers or the loose revprop files (so the missing file is never
recreated); and on a consistent repository it succeeds and running it again
succeeds with the same state. -/
theorem claim_C4 (fs : RecoverFS) (hw : derivedWatermark fs ≤ fs.youngest) :
    (fs.looseRevpropFile fs.youngest = false →
        svn_fs_recover fs = .error .Corruption)
    ∧ (∀ fs', svn_fs_recover fs = .ok fs' →
        fs'.looseRevpropFile = fs.looseRevpropFile
          ∧ fs'.packedShard = fs.packedShard)
    ∧ ((∀ r < fs.youngest + 1, derivedWatermark fs ≤ r →
          fs.looseRevpropFile r = true) →
        svn_fs_recover fs
            = .ok { fs with minUnpackedFile := derivedWatermark fs }
          ∧ svn_fs_recover { fs with minUnpackedFile := derivedWatermark fs }
            = .ok { fs with minUnpackedFile := derivedWatermark fs }) := by
  refine ⟨?_, ?_, ?_⟩
  · intro hmiss
    unfold svn_fs_recover
    rw [checkLooseRevprops_error fs.looseRevpropFile _ hmiss
      (derivedWatermark fs) hw (by omega)]
  · intro fs' hok
    unfold svn_fs_recover at hok
    split at hok
    · exact Except.noConfusion hok
    · rw [← Except.ok.inj hok]
      exact ⟨rfl, rfl⟩
  · intro hcons
    have h : ∀ x, derivedWatermark fs ≤ x → x ≤ fs.youngest →
        fs.looseRevpropFile x = true :=
      fun x hx1 hx2 => hcons x (by omega) hx1
    refine ⟨recover_ok fs h, ?_⟩
    exact recover_ok { fs with minUnpackedFile := derivedWatermark fs } h

/-- A consistent recovery scenario mirroring `recover_fully_packed`: shard
size 4, youngest revision 8, shards 0 and 1 packed, revision 8's revprop file
loose. -/
def demoRecoverOk : RecoverFS :=
  { shardSize := 4
    youngest := 8
    packedShard := fun k => decide (k < 2)
    looseRevpropFile := fun r => decide (8 ≤ r)
    minUnpackedFile := 0 }

/-- The same repository with the youngest revision's loose revprop file
deleted. -/
def demoRecoverBroken : RecoverFS :=
  { demoRecoverOk with looseRevpropFile := fun r => decide (9 ≤ r) }

/-- C4 witness: recovery of the broken repository fails with `Corruption`,
and recovery of the consistent one succeeds. -/
theorem claim_C4_witness :
    svn_fs_recover demoRecoverBroken = .error .Corruption
    ∧ svn_fs_recover demoRecoverOk
        = .ok { demoRecoverOk with
            minUnpackedFile := derivedWatermark demoRecoverOk } :=
  ⟨(claim_C4 demoRecoverBroken (by decide)).1 (by decide),
   ((claim_C4 demoRecoverOk (by decide)).2.2 (by decide)).1⟩

/-! Block-read checksum assurance (spec section 4.4): logical addressing
carries a physical-to-logical verification index; only the block-read path
compares the re-derived low-level checksum against it. -/

/-- A rolling low-level checksum over a byte block. -/
def blockChecksum (bs : List Nat) : Nat :=
  bs.foldl (fun a b => (a * 33 + b) % 4294967296) 5381

/-- One entry of the physical-to-logical verification index: offset, length
and the recorded low-level checksum of the block. -/
structure P2LEntry where
  off : Nat
  len : Nat
  chk : Nat
  deriving DecidableEq, Repr

/-- A logically addressed pack container: payload bytes plus the P2L index. -/
structure LogicalContainer where
  payload : List Nat
  p2l : List P2LEntry
  deriving DecidableEq, Repr

/-- Modelled from the spec: the plain (non-block) read path (section 4.4):
slices the payload with no checksum comparison, so it can silently return
corrupted bytes. -/
def plainRead (c : LogicalContainer) (i : Nat) : Except Err (List Nat) :=
  match c.p2l[i]? with
  | none => .error .NotFound
  | some e => .ok ((c.payload.drop e.off).take e.len)

/-- Modelled from the spec: the block-read path (section 4.4): re-derives the
low-level checksum of the accessed block and compares it against the P2L
index entry, surfacing `ChecksumMismatch` on divergence. -/
def blockRead (c : LogicalContainer) (i : Nat) : Except Err (List Nat) :=
  match c.p2l[i]? with
  | none => .error .NotFound
  | some e =>
      if blockChecksum ((c.payload.drop e.off).take e.len) = e.chk then
        .ok ((c.payload.drop e.off).take e.len)
      else .error .ChecksumMismatch

/-- C9: on a container whose on-disk block bytes diverge from the checksum
recorded in the physical-to-logical index entry, the block-read path raises
`ChecksumMismatch` while the plain read path performs no check and returns
the corrupted bytes without error. -/
theorem claim_C9 (c : LogicalContainer) (i : Nat) (e : P2LEntry)
    (he : c.p2l[i]? = some e)
    (hcorrupt : blockChecksum ((c.payload.drop e.off).take e.len) ≠ e.chk) :
    blockRead c i = .error .ChecksumMismatch
    ∧ plainRead c i = .ok ((c.payload.drop e.off).take e.len) := by
  unfold blockRead plainRead
  simp only [he]
  exact ⟨by rw [if_neg hcorrupt], trivial⟩

/-- A corrupted container: the indexed checksum does not match the stored
block. -/
def demoContainer : LogicalContainer :=
  { payload := [1, 2, 3, 4]
    p2l := [⟨0, 2, 12345⟩] }

/-- C9 witness: on the corrupted demo container, the block read fails with
`ChecksumMismatch` and the plain read returns the corrupted bytes. -/
theorem claim_C9_witness :
    blockRead demoContainer 0 = .error .ChecksumMismatch
    ∧ plainRead demoContainer 0 = .ok [1, 2] :=
  claim_C9 demoContainer 0 ⟨0, 2, 12345⟩ (by decide) (by decide)

/-! Revprop visibility across independently opened filesystem handles
(test `revprop_caching_on_off`). -/

/-- The shared on-disk repository: revprop values and the revprop generation
counter that revprop writes bump. -/
structure SharedRepo where
  revprops : Nat → PropSet
  generation : Nat

/-- Modelled from the spec: the spec does not describe the revprop cache of
the missing engine; it is modelled as a generation-tagged snapshot held by an
open filesystem handle, served only while the tag matches the repository's
revprop generation. -/
structure FSHandle where
  cacheRevprops : Bool
  cachedGen : Nat
  cachedProps : Nat → PropSet

/-- Modelled from the spec: reading a revision property through a handle:
with caching enabled and a current snapshot, serve the cache; otherwise read
the shared on-disk state (refreshing the snapshot). -/
def readRevProp (repo : SharedRepo) (h : FSHandle) (rev : Nat)
    (name : String) : Option String × FSHandle :=
  if h.cacheRevprops then
    if h.cachedGen = repo.generation then
      (propGet (h.cachedProps rev) name, h)
    else
      (propGet (repo.revprops rev) name,
       { h with cachedGen := repo.generation, cachedProps := repo.revprops })
  else (propGet (repo.revprops rev) name, h)

/-- Modelled from the spec: committing a revision property change to the
shared repository: update the value and bump the revprop generation. -/
def writeRevProp (repo : SharedRepo) (rev : Nat) (name v : String) :
    SharedRepo :=
  { revprops := fun r =>
      if r = rev then propSet (repo.revprops r) name v else repo.revprops r
    generation := repo.generation + 1 }

/-- C10: a revision-property change committed through one handle is visible
to a subsequent read through any handle of the same repository whose cache
tag is not newer than the repository — whether revprop caching is enabled on
that handle or not, both handles read the newly written value. -/
theorem claim_C10 (repo : SharedRepo) (h1 h2 : FSHandle) (rev : Nat)
    (name v : String)
    (hg1 : h1.cachedGen ≤ repo.generation)
    (hg2 : h2.cachedGen ≤ repo.generation) :
    (readRevProp (writeRevProp repo rev name v) h1 rev name).1 = some v
    ∧ (readRevProp (writeRevProp repo rev name v) h2 rev name).1 = some v := by
  have hfresh :
      propGet ((writeRevProp repo rev name v).revprops rev) name = some v := by
    simp [writeRevProp, propGet_propSet]
  constructor
  · unfold readRevProp
    by_cases hc : h1.cacheRevprops
    · rw [if_pos hc, if_neg (show ¬h1.cachedGen
        = (writeRevProp repo rev name v).generation by
          simp only [writeRevProp]
          omega)]
      exact hfresh
    · rw [if_neg hc]
      exact hfresh
  · unfold readRevProp
    by_cases hc : h2.cacheRevprops
    · rw [if_pos hc, if_neg (show ¬h2.cachedGen
        = (writeRevProp repo rev name v).generation by
          simp only [writeRevProp]
          omega)]
      exact hfresh
    · rw [if_neg hc]
      exact hfresh

/-- A shared repository at revprop generation 3. -/
def demoRepo : SharedRepo :=
  { revprops := fun _ => [(("svn:date"), ("2014-01-01"))]
    generation := 3 }

/-- A handle with revprop caching disabled. -/
def demoHandle1 : FSHandle :=
  { cacheRevprops := false
    cachedGen := 0
    cachedProps := fun _ => [] }

/-- A handle with revprop caching enabled and a current snapshot. -/
def demoHandle2 : FSHandle :=
  { cacheRevprops := true
    cachedGen := 3
    cachedProps := demoRepo.revprops }

/-- C10 witness: after a `svn:date` change committed against the demo
repository, both the caching and the non-caching handle read the new value. -/
theorem claim_C10_witness :
    (readRevProp (writeRevProp demoRepo 0 ("svn:date") ("new")) demoHandle1 0
        ("svn:date")).1 = some ("new")
    ∧ (readRevProp (writeRevProp demoRepo 0 ("svn:date") ("new")) demoHandle2 0
        ("svn:date")).1 = some ("new") :=
  claim_C10 demoRepo demoHandle1 demoHandle2 0 ("svn:date") ("new")
    (by decide) (by decide)

/-! Addressing modes and in-place upgrade (spec sections 3, 4.4 and 6): two
index flavors coexist per shard after an upgrade; reads dispatch on the
per-container flavor tag, transactions remember the mode they were created
under, and upgrading rewrites only the format descriptor. -/

/-- The two low-level addressing schemes. -/
inductive Addressing where
  | physical
  | logical
  deriving DecidableEq, Repr

/-- A pack container tagged with its index flavor: a physical container
carries a flat manifest of (offset, length) pairs in shard order; a logical
container carries a logical-to-physical index keyed by revision number. -/
inductive PackedContainer where
  | physical (payload : List Nat) (manifest : List (Nat × Nat))
  | logical (payload : List Nat) (l2p : List (Nat × Nat × Nat))
  deriving DecidableEq, Repr

/-- The flavor tag a read dispatches on. -/
def containerFlavor : PackedContainer → Addressing
  | .physical _ _ => .physical
  | .logical _ _ => .logical

/-- Modelled from the spec: packing shard `k` under addressing mode `mode`
(sections 4.2 and 4.4): concatenate the shard's payloads and record either
the flat manifest (physical) or the revision-keyed index (logical). -/
def encodeShard (mode : Addressing) (S k : Nat) (f : Nat → List Nat) :
    PackedContainer :=
  match mode with
  | .physical =>
      .physical (concatBlobs (fun i => f (k * S + i)) S)
        ((List.range S).map (fun i =>
          (blobOffset (fun j => f (k * S + j)) i, (f (k * S + i)).length)))
  | .logical =>
      .logical (concatBlobs (fun i => f (k * S + i)) S)
        ((List.range' (k * S) S).map (fun r =>
          (r, blobOffset (fun j => f (k * S + j)) (r - k * S), (f r).length)))

/-- Modelled from the spec: reading one revision out of a pack container,
dispatching on the per-container flavor tag, never on the global repository
setting (section 4.4). -/
def readShardRev (c : PackedContainer) (S rev : Nat) : Option (List Nat) :=
  match c with
  | .physical payload manifest =>
      match manifest[rev % S]? with
      | some e => some ((payload.drop e.1).take e.2)
      | none => none
  | .logical payload l2p =>
      match l2p.find? (fun e => e.1 == rev) with
      | some e => some ((payload.drop e.2.1).take e.2.2)
      | none => none

/-- Index consistency of one container: every index entry points inside the
payload. -/
def containerWellFormed : PackedContainer → Bool
  | .physical payload manifest =>
      manifest.all (fun e => decide (e.1 + e.2 ≤ payload.length))
  | .logical payload l2p =>
      l2p.all (fun e => decide (e.2.1 + e.2.2 ≤ payload.length))

/-- Repository state for the upgrade scenario: format descriptor addressing
mode, revision contents, flavor-tagged packed shards and open transactions
with their recorded addressing mode. -/
structure AddrFS where
  shardSize : Nat
  youngest : Nat
  fmt : Addressing
  content : Nat → List Nat
  packed : List (Nat × PackedContainer)
  txns : List (Nat × Addressing)

/-- Modelled from the spec: `upgrade(repo)` (section 6): rewrite the format
descriptor to logical addressing without touching already-packed shard
contents or in-flight transactions. -/
def svn_fs_upgrade (fs : AddrFS) : AddrFS :=
  { fs with fmt := .logical }

/-- Modelled from the spec: packing one shard tags the new container with the
current format descriptor mode (section 4.4). -/
def packShardAddr (fs : AddrFS) (k : Nat) : AddrFS :=
  { fs with
      packed := fs.packed ++ [(k, encodeShard fs.fmt fs.shardSize k fs.content)] }

/-- Modelled from the spec: opening a transaction records the addressing mode
it was created under (section 5). -/
def svn_fs_begin_txn (fs : AddrFS) (id : Nat) : AddrFS :=
  { fs with txns := fs.txns ++ [(id, fs.fmt)] }

/-- Modelled from the spec: committing a transaction appends the new youngest
revision and commits using the mode recorded at the transaction's creation,
which the result reports (section 5). -/
def svn_fs_commit_txn (fs : AddrFS) (id : Nat) (blob : List Nat) :
    Except Err (AddrFS × Addressing) :=
  match fs.txns.find? (fun e => e.1 == id) with
  | none => .error .NotFound
  | some e =>
      .ok ({ fs with
              youngest := fs.youngest + 1
              content := fun r =>
                if r = fs.youngest + 1 then blob else fs.content r
              txns := fs.txns.filter (fun t => t.1 != id) }, e.2)

/-- Modelled from the spec: whole-repository index verification
(`svn_fs_verify`): checks every packed container's index against its payload
and reports `Corruption` on any inconsistency. -/
def svn_fs_verify (fs : AddrFS) : Except Err Unit :=
  if fs.packed.all (fun e => containerWellFormed e.2) then .ok ()
  else .error .Corruption

/-- Modelled from the spec: the revision read dispatch (section 4.1): a
revision in a packed shard is read out of that shard's container through the
container's own flavor; otherwise the loose file is read. -/
def readRevAddr (fs : AddrFS) (rev : Nat) : Option (List Nat) :=
  match fs.packed.find? (fun e => e.1 == shardOf fs.shardSize rev) with
  | some e => readShardRev e.2 fs.shardSize rev
  | none => some (fs.content rev)

theorem readShardRev_physical (S k : Nat) (f : Nat → List Nat) (rev : Nat)
    (h1 : k * S ≤ rev) (h2 : rev < k * S + S) :
    readShardRev (encodeShard .physical S k f) S rev = some (f rev) := by
  have hjlt : rev - k * S < S := by omega
  have hrev : k * S + (rev - k * S) = rev := by omega
  have hmod : rev % S = rev - k * S := by
    have h := Nat.add_mul_mod_self_left (rev - k * S) S k
    rw [Nat.mod_eq_of_lt hjlt] at h
    rw [← h]
    congr 1
    rw [Nat.mul_comm S k]
    omega
  have hex := extractBlob (fun j => f (k * S + j)) hjlt
  simp only [hrev] at hex
  simp only [readShardRev, encodeShard, hmod, List.getElem?_map,
    List.getElem?_range, hjlt, if_pos, Option.map_some']
  simpa [hrev] using hex

theorem readShardRev_logical (S k : Nat) (f : Nat → List Nat) (rev : Nat)
    (h1 : k * S ≤ rev) (h2 : rev < k * S + S) :
    readShardRev (encodeShard .logical S k f) S rev = some (f rev) := by
  have hjlt : rev - k * S < S := by omega
  have hrev : k * S + (rev - k * S) = rev := by omega
  have hfind := find_in_mapped_range
    (fun r => (blobOffset (fun j => f (k * S + j)) (r - k * S), (f r).length))
    rev (k * S) S h1 (by omega)
  have hex := extractBlob (fun j => f (k * S + j)) hjlt
  simp only [hrev] at hex
  simp only [readShardRev, encodeShard, hfind]
  exact congrArg some hex

theorem encodeShard_wellFormed (mode : Addressing) (S k : Nat)
    (f : Nat → List Nat) :
    containerWellFormed (encodeShard mode S k f) = true := by
  cases mode with
  | physical =>
      simp only [encodeShard, containerWellFormed, List.all_eq_true]
      intro e he
      rcases List.mem_map.mp he with ⟨i, hi, rfl⟩
      have hiS : i + 1 ≤ S := List.mem_range.mp hi
      simp only [decide_eq_true_eq, length_concatBlobs]
      have hstep : blobOffset (fun j => f (k * S + j)) (i + 1)
          = blobOffset (fun j => f (k * S + j)) i + (f (k * S + i)).length := rfl
      have := blobOffset_mono (fun j => f (k * S + j)) hiS
      omega
  | logical =>
      simp only [encodeShard, containerWellFormed, List.all_eq_true]
      intro e he
      rcases List.mem_map.mp he with ⟨r, hr, rfl⟩
      have hb := (List.mem_range'_1).mp hr
      have hjS : r - k * S + 1 ≤ S := by omega
      have hrev : k * S + (r - k * S) = r := by omega
      simp only [decide_eq_true_eq, length_concatBlobs]
      have hstep : blobOffset (fun j => f (k * S + j)) (r - k * S + 1)
          = blobOffset (fun j => f (k * S + j)) (r - k * S)
            + (f (k * S + (r - k * S))).length := rfl
      rw [hrev] at hstep
      have := blobOffset_mono (fun j => f (k * S + j)) hjS
      omega

/-- C6: after an addressing-mode upgrade of the format descriptor, (a) the
packed shards are untouched, a shard packed under physical addressing keeps
its physical flavor and every revision in it still reads back its content
through the per-container dispatch; (b) a shard packed after the upgrade is
tagged with the new logical flavor and reads back correctly; (c) a
transaction opened before the upgrade commits successfully using the physical
mode it was created under, its committed content readable; (d) whole-
repository index verification reports no errors. -/
theorem claim_C6 (fs : AddrFS) (hfmt : fs.fmt = .physical)
    (k k' id : Nat) (blob : List Nat)
    (hk : fs.packed.find? (fun e => e.1 == k)
      = some (k, encodeShard .physical fs.shardSize k fs.content))
    (hfresh : fs.txns.find? (fun e => e.1 == id) = none)
    (hwf : ∀ e ∈ fs.packed, containerWellFormed e.2 = true) :
    ((svn_fs_upgrade fs).packed = fs.packed
      ∧ containerFlavor (encodeShard .physical fs.shardSize k fs.content)
          = .physical
      ∧ (∀ rev, k * fs.shardSize ≤ rev → rev < k * fs.shardSize + fs.shardSize →
          readRevAddr (svn_fs_upgrade fs) rev = some (fs.content rev)))
    ∧ (containerFlavor
          (encodeShard (svn_fs_upgrade fs).fmt fs.shardSize k' fs.content)
          = .logical
      ∧ (k', encodeShard .logical fs.shardSize k' fs.content)
          ∈ (packShardAddr (svn_fs_upgrade fs) k').packed
      ∧ (∀ rev, k' * fs.shardSize ≤ rev →
          rev < k' * fs.shardSize + fs.shardSize →
          readShardRev (encodeShard .logical fs.shardSize k' fs.content)
            fs.shardSize rev = some (fs.content rev)))
    ∧ (∃ fs', svn_fs_commit_txn (svn_fs_upgrade (svn_fs_begin_txn fs id)) id blob
          = .ok (fs', .physical)
        ∧ fs'.content (fs.youngest + 1) = blob)
    ∧ svn_fs_verify (packShardAddr (svn_fs_upgrade fs) k') = .ok () := by
  refine ⟨⟨rfl, rfl, ?_⟩, ⟨rfl, ?_, ?_⟩, ?_, ?_⟩
  · intro rev hr1 hr2
    have hshard : shardOf fs.shardSize rev = k := by
      unfold shardOf
      exact Nat.div_eq_of_lt_le hr1 (by rw [Nat.succ_mul]; omega)
    show (match fs.packed.find? (fun e => e.1 == shardOf fs.shardSize rev) with
      | some e => readShardRev e.2 fs.shardSize rev
      | none => some (fs.content rev)) = some (fs.content rev)
    rw [hshard, hk]
    exact readShardRev_physical fs.shardSize k fs.content rev hr1 hr2
  · show _ ∈ fs.packed ++ [(k', encodeShard .logical fs.shardSize k' fs.content)]
    exact List.mem_append_right _ (List.mem_singleton.mpr rfl)
  · intro rev hr1 hr2
    exact readShardRev_logical fs.shardSize k' fs.content rev hr1 hr2
  · have hfind : ((svn_fs_upgrade (svn_fs_begin_txn fs id)).txns.find?
        (fun e => e.1 == id)) = some (id, fs.fmt) := by
      show ((fs.txns ++ [(id, fs.fmt)]).find? (fun e => e.1 == id)) = _
      rw [List.find?_append, hfresh, Option.none_or]
      simp [List.find?]
    have hcommit : svn_fs_commit_txn (svn_fs_upgrade (svn_fs_begin_txn fs id))
        id blob
        = .ok ({ svn_fs_upgrade (svn_fs_begin_txn fs id) with
            youngest := (svn_fs_upgrade (svn_fs_begin_txn fs id)).youngest + 1
            content := fun r =>
              if r = (svn_fs_upgrade (svn_fs_begin_txn fs id)).youngest + 1
              then blob
              else (svn_fs_upgrade (svn_fs_begin_txn fs id)).content r
            txns := (svn_fs_upgrade (svn_fs_begin_txn fs id)).txns.filter
              (fun t => t.1 != id) }, fs.fmt) := by
      unfold svn_fs_commit_txn
      rw [hfind]
    rw [hfmt] at hcommit
    refine ⟨_, hcommit, ?_⟩
    show (if fs.youngest + 1 = fs.youngest + 1 then blob else _) = blob
    rw [if_pos rfl]
  · unfold svn_fs_verify
    rw [if_pos ?_]
    rw [List.all_eq_true]
    intro e he
    rcases List.mem_append.mp he with h | h
    · exact hwf e h
    · rw [List.mem_singleton.mp h]
      exact encodeShard_wellFormed .logical fs.shardSize k' fs.content

/-- Revision contents for the upgrade demo. -/
def demoContentA : Nat → List Nat := fun r => [r, r + 7]

/-- A physically addressed repository: shard size 2, youngest revision 5,
shards 0 and 1 packed under physical addressing, no open transactions. -/
def demoAddrFS : AddrFS :=
  { shardSize := 2
    youngest := 5
    fmt := .physical
    content := demoContentA
    packed := [(0, encodeShard .physical 2 0 demoContentA),
               (1, encodeShard .physical 2 1 demoContentA)]
    txns := [] }

/-- C6 witness: on the demo repository, whole-repository index verification
after an upgrade followed by packing shard 2 (tagged logical) reports no
errors. -/
theorem claim_C6_witness :
    svn_fs_verify (packShardAddr (svn_fs_upgrade demoAddrFS) 2) = .ok () :=
  (claim_C6 demoAddrFS rfl 0 2 9 [42] (by decide) rfl (by decide)).2.2.2

end Svn
